import Mathlib

/-!
Shallow embedding of the miaw-limit-order contract (src/contract.rs, src/order.rs,
src/query.rs, src/state.rs, src/msg.rs).

Storage keys are modelled at the byte level: `u64::to_be_bytes` becomes a list of
base-256 digits, and the storage maps are association lists kept sorted by the
lexicographic byte order that the host key-value store iterates in.  Each contract
operation is a pure function taking the storage state and returning the new state
together with a result; in the Rust code every error return happens before any
storage write, which this state-passing style makes provable.

Machine integers: `Uint128` and `u64` values are `Nat`.  The two places where
overflow semantics matter are modelled explicitly: the `Uint128` subtraction in
`execute_order` (whose underflow branch panics in Rust) and the `u64` increment in
`store_new_order` (CosmWasm contracts are built with overflow checks, so the
increment at `u64::MAX` aborts the call); both are modelled as the `overflowPanic`
error.
-/

deriving instance DecidableEq for Except

namespace MiawLimitOrder

/-- Storage keys are byte strings; bytes are base-256 digits. -/
abbrev Bytes := List Nat

/-- `beBytes k n` is the big-endian `k`-byte encoding of `n` (top digit first). -/
def beBytes : Nat → Nat → List Nat
  | 0, _ => []
  | k + 1, n => n / 2 ^ (8 * k) :: beBytes k (n % 2 ^ (8 * k))

/-- `u64::to_be_bytes`: the 8-byte big-endian encoding used for all order-id keys. -/
def to_be_bytes (n : Nat) : Bytes := beBytes 8 n

/-- Lexicographic strict order on byte strings: the iteration order of the host
key-value store. -/
def bytesLt : Bytes → Bytes → Bool
  | [], [] => false
  | [], _ :: _ => true
  | _ :: _, [] => false
  | a :: as, b :: bs => if a < b then true else if b < a then false else bytesLt as bs

/-- Order on the composite `(owner bytes, order-id bytes)` keys of the secondary
index: by owner first, then by id bytes (the store iterates a fixed owner prefix
in id-byte order). -/
def pairLt (a b : String × Bytes) : Bool :=
  if a.1 < b.1 then true else if a.1 = b.1 then bytesLt a.2 b.2 else false

section KVStore

variable {κ α : Type} [DecidableEq κ]

/-- `Map::save`: insert-or-replace, keeping the association list sorted by `lt`. -/
def kvSave (lt : κ → κ → Bool) : List (κ × α) → κ → α → List (κ × α)
  | [], k, v => [(k, v)]
  | p :: rest, k, v =>
    if lt k p.1 then (k, v) :: p :: rest
    else if k = p.1 then (k, v) :: rest
    else p :: kvSave lt rest k v

/-- `Map::remove`. -/
def kvRemove (m : List (κ × α)) (k : κ) : List (κ × α) :=
  m.filter (fun p => decide (p.1 ≠ k))

/-- `Map::load` (as an `Option`; the Rust version errors with `NotFound` on `None`). -/
def kvLoad (m : List (κ × α)) (k : κ) : Option α :=
  (m.find? (fun p => decide (p.1 = k))).map (fun p => p.2)

end KVStore

/-- terraswap `AssetInfo`. -/
inductive AssetInfo
  | NativeToken (denom : String)
  | Token (contract_addr : String)
deriving DecidableEq

/-- terraswap `Asset`: a fungible amount tagged with its kind. -/
structure Asset where
  info : AssetInfo
  amount : Nat
deriving DecidableEq

/-- `Config` (state.rs). -/
structure Config where
  fee_token : String
  min_fee_amount : Nat
  terraswap_factory : String
deriving DecidableEq

/-- `OrderInfo` (state.rs). -/
structure OrderInfo where
  order_id : Nat
  bidder_addr : String
  pair_addr : String
  offer_asset : Asset
  ask_asset : Asset
  fee_amount : Nat
deriving DecidableEq

/-- The contract's persisted state: the two singletons and the two maps
(state.rs `CONFIG`, `LAST_ORDER_ID`, `ORDERS`, `ORDERS_BY_USER`). -/
structure State where
  config : Config
  last_order_id : Nat
  orders : List (Bytes × OrderInfo)
  orders_by_user : List ((String × Bytes) × Bool)
deriving DecidableEq

/-- terraswap `PairInfo`, restricted to the field this contract uses. -/
structure PairInfo where
  contract_addr : String
deriving DecidableEq

/-- terraswap `SimulationResponse`, restricted to the field this contract uses. -/
structure SimulationResponse where
  return_amount : Nat
deriving DecidableEq

/-- `cosmwasm_std::Coin`. -/
structure Coin where
  denom : String
  amount : Nat
deriving DecidableEq

/-- `cosmwasm_std::MessageInfo`: the caller and the natively attached funds. -/
structure MessageInfo where
  sender : String
  funds : List Coin
deriving DecidableEq

/-- `cosmwasm_std::Env`, restricted to the contract's own address. -/
structure Env where
  contract_address : String
deriving DecidableEq

/-- The outbound instructions this contract constructs (order.rs):
a cw20 transfer-from pull, a cw20 `Send`-with-swap-hook at a pair, a native
swap at a pair, and an asset transfer produced by `Asset::into_msg`. -/
inductive CosmosMsg
  | transferFromMsg (token owner recipient : String) (amount : Nat)
  | swapTokenMsg (token pool : String) (amount : Nat)
  | swapNativeMsg (pool denom : String) (amount : Nat)
  | transferMsg (asset : Asset) (recipient : String)
deriving DecidableEq

/-- `cosmwasm_std::Response`: outbound messages plus event attributes. -/
structure Response where
  messages : List CosmosMsg
  attributes : List (String × String)
deriving DecidableEq

/-- The error kinds this contract can return (§7 of the spec; in the Rust source
all but `notFound` are `StdError::generic_err` with a fixed message, and
`notFound` arises from `ORDERS.load`).  `overflowPanic` models the two
arithmetic-overflow panics (the `Uint128` subtraction in `execute_order`
and the `u64` counter increment), which abort the call. -/
inductive StdError
  | invalidFee
  | noMarket
  | paymentMismatch
  | notFound
  | unauthorized
  | insufficientReturn
  | venueUnavailable
  | invalidAddress
  | overflowPanic
deriving DecidableEq

/-- `OrderBy` (msg.rs). -/
inductive OrderBy
  | Asc
  | Desc
deriving DecidableEq

/-- `cosmwasm_std::Order`: the iteration direction of a range scan. -/
inductive IterOrder
  | Ascending
  | Descending
deriving DecidableEq

/-- `ExecuteMsg` (msg.rs). -/
inductive ExecuteMsg
  | SubmitOrder (offer_asset ask_asset : Asset) (fee_amount : Nat)
  | CancelOrder (order_id : Nat)
  | ExecuteOrder (order_id : Nat)
deriving DecidableEq

/-- `OrderResponse` (msg.rs). -/
structure OrderResponse where
  order_id : Nat
  bidder_addr : String
  pair_addr : String
  offer_asset : Asset
  ask_asset : Asset
  fee_amount : Nat
deriving DecidableEq

/-- `ConfigResponse` (msg.rs). -/
structure ConfigResponse where
  fee_token : String
  min_fee_amount : Nat
  terraswap_factory : String
deriving DecidableEq

/-- `OrdersResponse` (msg.rs). -/
structure OrdersResponse where
  orders : List OrderResponse
deriving DecidableEq

/-- `LastOrderIdResponse` (msg.rs). -/
structure LastOrderIdResponse where
  last_order_id : Nat
deriving DecidableEq

/-- `InstantiateMsg` (msg.rs). -/
structure InstantiateMsg where
  fee_token : String
  min_fee_amount : Nat
  terraswap_factory : String
deriving DecidableEq

/-- Modelled from the spec: terraswap `Asset::assert_sent_native_token_balance`
is not part of this repository.  Per §4.1 it fails with `PaymentMismatch` unless
the call context attached exactly `amount` of the native denomination, and is a
no-op for token assets. -/
def assert_sent_native_token_balance (a : Asset) (info : MessageInfo) :
    Except StdError Unit :=
  match a.info with
  | .NativeToken denom =>
    if ((info.funds.filter (fun c => decide (c.denom = denom))).map Coin.amount).sum
        = a.amount then .ok () else .error .paymentMismatch
  | .Token _ => .ok ()

/-- Modelled from the spec: terraswap `Asset::into_msg` is not part of this
repository.  Per §4.1 `to_transfer_instruction(recipient)` is a pure function
producing one transfer of the asset to the recipient. -/
def into_msg (a : Asset) (recipient : String) : CosmosMsg :=
  .transferMsg a recipient

/-- Modelled from the spec: the display form of an asset used only in event
attributes (terraswap's `Display` impl is not part of this repository). -/
def assetToString (a : Asset) : String :=
  match a.info with
  | .NativeToken d => toString a.amount ++ d
  | .Token c => toString a.amount ++ c

/-- `store_new_order` (state.rs): allocate `last_order_id + 1`, write the order
under its big-endian id key, mark the `(owner, id)` secondary-index entry, and
persist the bumped counter.  The `u64` increment at `u64::MAX` aborts the call
(overflow checks), modelled as `overflowPanic` with the state unchanged. -/
def store_new_order (s : State) (order : OrderInfo) :
    State × Except StdError OrderInfo :=
  let new_id := s.last_order_id + 1
  if new_id < 2 ^ 64 then
    let order2 := { order with order_id := new_id }
    ({ s with
        last_order_id := new_id,
        orders := kvSave bytesLt s.orders (to_be_bytes new_id) order2,
        orders_by_user :=
          kvSave pairLt s.orders_by_user (order2.bidder_addr, to_be_bytes new_id) true },
     .ok order2)
  else (s, .error .overflowPanic)

/-- `remove_order` (state.rs): delete the order from the primary table and its
marker from the secondary index. -/
def remove_order (s : State) (order : OrderInfo) : State :=
  { s with
    orders := kvRemove s.orders (to_be_bytes order.order_id),
    orders_by_user :=
      kvRemove s.orders_by_user (order.bidder_addr, to_be_bytes order.order_id) }

/-- `MAX_LIMIT` (state.rs). -/
def MAX_LIMIT : Nat := 30

/-- `DEFAULT_LIMIT` (state.rs). -/
def DEFAULT_LIMIT : Nat := 10

/-- `calc_range_start` (state.rs): the first key after the given id, obtained by
appending a `1` byte to its big-endian encoding. -/
def calc_range_start (start_after : Option Nat) : Option Bytes :=
  start_after.map (fun id => to_be_bytes id ++ [1])

/-- `calc_range_end` (state.rs): the big-endian encoding of the given id. -/
def calc_range_end (start_after : Option Nat) : Option Bytes :=
  start_after.map to_be_bytes

/-- A key lies inside the (exclusive) range bounds used by `Map::range`. -/
def boundOk (start stop : Option Bytes) (k : Bytes) : Bool :=
  (match start with
   | none => true
   | some sb => bytesLt sb k) &&
  (match stop with
   | none => true
   | some eb => bytesLt k eb)

/-- `Map::range` over the primary table: the entries within the bounds, in
ascending or descending key order. -/
def mapRange {α : Type} (m : List (Bytes × α)) (start stop : Option Bytes)
    (ord : IterOrder) : List (Bytes × α) :=
  match ord with
  | .Ascending => m.filter (fun p => boundOk start stop p.1)
  | .Descending => (m.filter (fun p => boundOk start stop p.1)).reverse

/-- `Map::prefix(user).range`: the id-byte keys of one owner's secondary-index
entries within the bounds, in the requested direction. -/
def idxRange (idx : List ((String × Bytes) × Bool)) (user : String)
    (start stop : Option Bytes) (ord : IterOrder) : List Bytes :=
  let keys := (idx.filter
      (fun p => decide (p.1.1 = user) && boundOk start stop p.1.2)).map
    (fun p => p.1.2)
  match ord with
  | .Ascending => keys
  | .Descending => keys.reverse

/-- The `ORDERS.load` re-fetch loop of `read_orders_by_user` (state.rs):
resolve each secondary-index key to its primary record. -/
def load_order_keys (orders : List (Bytes × OrderInfo)) :
    List Bytes → Except StdError (List OrderInfo)
  | [] => .ok []
  | k :: ks =>
    match kvLoad orders k with
    | none => .error .notFound
    | some o =>
      match load_order_keys orders ks with
      | .error e => .error e
      | .ok rest => .ok (o :: rest)

/-- `read_orders_by_user` (state.rs). -/
def read_orders_by_user (s : State) (user : String) (start_after : Option Nat)
    (limit : Option Nat) (order_by : Option OrderBy) :
    Except StdError (List OrderInfo) :=
  let lim := min (limit.getD DEFAULT_LIMIT) MAX_LIMIT
  let (start, stop, ord) :=
    match order_by with
    | some OrderBy.Asc =>
      (calc_range_start start_after, (none : Option Bytes), IterOrder.Ascending)
    | _ => ((none : Option Bytes), calc_range_end start_after, IterOrder.Descending)
  load_order_keys s.orders ((idxRange s.orders_by_user user start stop ord).take lim)

/-- `read_orders` (state.rs). -/
def read_orders (s : State) (start_after : Option Nat) (limit : Option Nat)
    (order_by : Option OrderBy) : List OrderInfo :=
  let lim := min (limit.getD DEFAULT_LIMIT) MAX_LIMIT
  let (start, stop, ord) :=
    match order_by with
    | some OrderBy.Asc =>
      (calc_range_start start_after, (none : Option Bytes), IterOrder.Ascending)
    | _ => ((none : Option Bytes), calc_range_end start_after, IterOrder.Descending)
  ((mapRange s.orders start stop ord).take lim).map (fun p => p.2)

/-- `Config::as_res` (state.rs). -/
def Config.as_res (c : Config) : ConfigResponse :=
  { fee_token := c.fee_token, min_fee_amount := c.min_fee_amount,
    terraswap_factory := c.terraswap_factory }

/-- `OrderInfo::as_res` (state.rs). -/
def OrderInfo.as_res (o : OrderInfo) : OrderResponse :=
  { order_id := o.order_id, bidder_addr := o.bidder_addr, pair_addr := o.pair_addr,
    offer_asset := o.offer_asset, ask_asset := o.ask_asset, fee_amount := o.fee_amount }

/-- `query_config` (query.rs). -/
def query_config (s : State) : ConfigResponse :=
  s.config.as_res

/-- `query_order` (query.rs). -/
def query_order (s : State) (order_id : Nat) : Except StdError OrderResponse :=
  match kvLoad s.orders (to_be_bytes order_id) with
  | none => .error .notFound
  | some o => .ok o.as_res

/-- `query_orders` (query.rs). -/
def query_orders (s : State) (bidder_addr : Option String) (start_after : Option Nat)
    (limit : Option Nat) (order_by : Option OrderBy) :
    Except StdError OrdersResponse :=
  match bidder_addr with
  | some user =>
    match read_orders_by_user s user start_after limit order_by with
    | .error e => .error e
    | .ok os => .ok { orders := os.map OrderInfo.as_res }
  | none => .ok { orders := (read_orders s start_after limit order_by).map OrderInfo.as_res }

/-- `query_last_order_id` (query.rs). -/
def query_last_order_id (s : State) : LastOrderIdResponse :=
  { last_order_id := s.last_order_id }

/-- The `Uint128` subtraction of order.rs line 176: panics (aborting the call)
when the subtrahend exceeds the minuend, modelled as `overflowPanic`. -/
def uint128_sub (a b : Nat) : Except StdError Nat :=
  if b ≤ a then .ok (a - b) else .error .overflowPanic

/-- `submit_order` (order.rs).  The external factory query
`query_pair_info` is passed in as its result `pair_query` (`none` when no pair
exists for the two assets, which the code maps to the no-market error). -/
def submit_order (pair_query : Option PairInfo) (s : State) (env : Env)
    (info : MessageInfo) (offer_asset ask_asset : Asset) (fee_amount : Nat) :
    State × Except StdError Response :=
  let config := s.config
  if fee_amount < config.min_fee_amount then (s, .error .invalidFee)
  else
    match pair_query with
    | none => (s, .error .noMarket)
    | some pair_info =>
      let escrow : Except StdError (List CosmosMsg) :=
        match offer_asset.info with
        | .NativeToken _ =>
          match assert_sent_native_token_balance offer_asset info with
          | .error e => .error e
          | .ok _ => .ok []
        | .Token contract_addr =>
          .ok [CosmosMsg.transferFromMsg contract_addr info.sender
                env.contract_address offer_asset.amount]
      match escrow with
      | .error e => (s, .error e)
      | .ok msgs0 =>
        let messages := msgs0 ++
          [CosmosMsg.transferFromMsg config.fee_token info.sender
            env.contract_address fee_amount]
        let new_order : OrderInfo :=
          { order_id := 0, bidder_addr := info.sender,
            pair_addr := pair_info.contract_addr,
            offer_asset := offer_asset, ask_asset := ask_asset,
            fee_amount := fee_amount }
        match store_new_order s new_order with
        | (s1, .error e) => (s1, .error e)
        | (s1, .ok stored) =>
          (s1, .ok { messages := messages,
                     attributes := [("action", "submit_order"),
                                    ("order_id", toString stored.order_id),
                                    ("bidder_addr", info.sender),
                                    ("offer_asset", assetToString offer_asset),
                                    ("ask_asset", assetToString ask_asset)] })

/-- `cancel_order` (order.rs). -/
def cancel_order (s : State) (info : MessageInfo) (order_id : Nat) :
    State × Except StdError Response :=
  let config := s.config
  match kvLoad s.orders (to_be_bytes order_id) with
  | none => (s, .error .notFound)
  | some order =>
    if order.bidder_addr ≠ info.sender then (s, .error .unauthorized)
    else
      let refund_fee_asset : Asset :=
        { info := AssetInfo.Token config.fee_token, amount := order.fee_amount }
      let messages := [into_msg order.offer_asset order.bidder_addr,
                       into_msg refund_fee_asset order.bidder_addr]
      (remove_order s order,
       .ok { messages := messages,
             attributes := [("action", "cancel_order"),
                            ("order_id", toString order_id),
                            ("refunded_asset", assetToString order.offer_asset),
                            ("refunded_fee", assetToString refund_fee_asset)] })

/-- The swap instruction `execute_order` builds (order.rs lines 134-165): the
full escrowed `offer_asset` amount is swapped at the order's pair, with no
slippage bound and no recipient override. -/
def make_swap_msg (order : OrderInfo) : CosmosMsg :=
  match order.offer_asset.info with
  | AssetInfo.Token contract_addr =>
    CosmosMsg.swapTokenMsg contract_addr order.pair_addr order.offer_asset.amount
  | AssetInfo.NativeToken denom =>
    CosmosMsg.swapNativeMsg order.pair_addr denom order.offer_asset.amount

/-- `execute_order` (order.rs).  The external venue simulation is passed in as
its result `sim` (`none` when the query fails). -/
def execute_order (sim : Option SimulationResponse) (s : State)
    (info : MessageInfo) (order_id : Nat) : State × Except StdError Response :=
  let config := s.config
  match kvLoad s.orders (to_be_bytes order_id) with
  | none => (s, .error .notFound)
  | some order =>
    match sim with
    | none => (s, .error .venueUnavailable)
    | some simul_res =>
      if simul_res.return_amount < order.ask_asset.amount then
        (s, .error .insufficientReturn)
      else
        let messages := [make_swap_msg order,
                         into_msg order.ask_asset order.bidder_addr]
        match uint128_sub simul_res.return_amount order.ask_asset.amount with
        | .error e => (s, .error e)
        | .ok excess_amount =>
          let messages := messages ++
            (if 0 < excess_amount then
              [into_msg { amount := excess_amount, info := order.ask_asset.info }
                info.sender]
             else [])
          let fee_asset : Asset :=
            { amount := order.fee_amount, info := AssetInfo.Token config.fee_token }
          let messages := messages ++ [into_msg fee_asset info.sender]
          (remove_order s order,
           .ok { messages := messages,
                 attributes := [("action", "execute_order"),
                                ("order_id", toString order.order_id),
                                ("fee_amount", toString fee_asset.amount),
                                ("excess_amount", toString excess_amount)] })

/-- `instantiate` (contract.rs): commit the config and a zero counter. -/
def instantiate (msg : InstantiateMsg) : State :=
  { config := { fee_token := msg.fee_token, min_fee_amount := msg.min_fee_amount,
                terraswap_factory := msg.terraswap_factory },
    last_order_id := 0, orders := [], orders_by_user := [] }

/-- The `execute` dispatcher (contract.rs). -/
def execute (pair_query : Option PairInfo) (sim : Option SimulationResponse)
    (s : State) (env : Env) (info : MessageInfo) (msg : ExecuteMsg) :
    State × Except StdError Response :=
  match msg with
  | .SubmitOrder offer_asset ask_asset fee_amount =>
    submit_order pair_query s env info offer_asset ask_asset fee_amount
  | .CancelOrder order_id => cancel_order s info order_id
  | .ExecuteOrder order_id => execute_order sim s info order_id

/-- One successful contract invocation (the host commits state only on success;
the oracle arguments stand for the external factory and venue responses). -/
inductive Step : State → State → Prop
  | exec (pair_query : Option PairInfo) (sim : Option SimulationResponse)
      (env : Env) (info : MessageInfo) (msg : ExecuteMsg) (s s2 : State)
      (r : Response) :
      execute pair_query sim s env info msg = (s2, Except.ok r) → Step s s2

/-- States reachable from instantiation by successful invocations. -/
inductive Reachable : State → Prop
  | init (msg : InstantiateMsg) : Reachable (instantiate msg)
  | step {s s2 : State} : Reachable s → Step s s2 → Reachable s2

/-- All primary-table entries are keyed by the big-endian bytes of their own
order id, and ids fit in a `u64`. -/
abbrev KeysCoherent (s : State) : Prop :=
  ∀ p ∈ s.orders, p.1 = to_be_bytes p.2.order_id ∧ p.2.order_id < 2 ^ 64

/-- The storage invariant of reachable states: primary keys are the big-endian
bytes of the stored id, ids never exceed the counter, the counter fits in a
`u64`, both maps are sorted in key order, and the secondary index holds exactly
one marker per live order. -/
structure Inv (s : State) : Prop where
  coherent : ∀ p ∈ s.orders, p.1 = to_be_bytes p.2.order_id
  idBound : ∀ p ∈ s.orders, p.2.order_id ≤ s.last_order_id
  lastBound : s.last_order_id < 2 ^ 64
  sortedOrders : List.Pairwise (fun p q => bytesLt p.1 q.1 = true) s.orders
  sortedIdx : List.Pairwise (fun p q => pairLt p.1 q.1 = true) s.orders_by_user
  sync : ∀ u kb, ((u, kb), true) ∈ s.orders_by_user ↔
    ∃ o, (kb, o) ∈ s.orders ∧ o.bidder_addr = u

/-- Concrete instantiation used to evaluate the theorems on a running example. -/
def testMsg : InstantiateMsg :=
  { fee_token := "fee", min_fee_amount := 1, terraswap_factory := "factory" }

/-- Concrete environment for the running example. -/
def testEnv : Env := { contract_address := "self" }

/-- Concrete caller for the running example. -/
def testInfo : MessageInfo := { sender := "alice", funds := [] }

/-- A different caller, not the owner of the test order. -/
def testInfoBob : MessageInfo := { sender := "bob", funds := [] }

/-- Concrete offer asset for the running example. -/
def testOffer : Asset := { info := AssetInfo.Token "coin", amount := 500 }

/-- Concrete ask asset for the running example. -/
def testAsk : Asset := { info := AssetInfo.Token "gold", amount := 480 }

/-- Concrete resolved pair for the running example. -/
def testPair : PairInfo := { contract_addr := "pair" }

/-- The state after one successful submission on a fresh instantiation. -/
def testState : State :=
  (submit_order (some testPair) (instantiate testMsg) testEnv testInfo
    testOffer testAsk 100).1

/-- The order stored by the test submission. -/
def testOrder : OrderInfo :=
  { order_id := 1, bidder_addr := "alice", pair_addr := "pair",
    offer_asset := testOffer, ask_asset := testAsk, fee_amount := 100 }

/-- The response of the test submission. -/
def testResp : Response :=
  { messages := [CosmosMsg.transferFromMsg "coin" "alice" "self" 500,
                 CosmosMsg.transferFromMsg "fee" "alice" "self" 100],
    attributes := [("action", "submit_order"), ("order_id", "1"),
                   ("bidder_addr", "alice"), ("offer_asset", "500coin"),
                   ("ask_asset", "480gold")] }

/-! ### Order lemmas for the byte-string key order -/

theorem bytesLt_irrefl (a : Bytes) : bytesLt a a = false := by
  induction a with
  | nil => rfl
  | cons x xs ih => simp [bytesLt, ih]

theorem bytesLt_cons_iff (x y : Nat) (xs ys : Bytes) :
    bytesLt (x :: xs) (y :: ys) = true ↔ x < y ∨ (x = y ∧ bytesLt xs ys = true) := by
  simp only [bytesLt]
  split
  case isTrue h => simp [h]
  case isFalse h =>
    split
    case isTrue h2 =>
      constructor
      · intro hf; exact absurd hf (by simp)
      · rintro (h3 | ⟨h3, _⟩) <;> omega
    case isFalse h2 =>
      have hxy : x = y := by omega
      simp [hxy]

theorem bytesLt_trans (a : Bytes) :
    ∀ b c : Bytes, bytesLt a b = true → bytesLt b c = true → bytesLt a c = true := by
  induction a with
  | nil =>
    intro b c hab hbc
    cases b with
    | nil => simp [bytesLt] at hab
    | cons y ys =>
      cases c with
      | nil => simp [bytesLt] at hbc
      | cons z zs => rfl
  | cons x xs ih =>
    intro b c hab hbc
    cases b with
    | nil => simp [bytesLt] at hab
    | cons y ys =>
      cases c with
      | nil => simp [bytesLt] at hbc
      | cons z zs =>
        rw [bytesLt_cons_iff] at hab hbc ⊢
        rcases hab with h1 | ⟨h1, h1b⟩
        · rcases hbc with h2 | ⟨h2, h2b⟩
          · exact Or.inl (by omega)
          · exact Or.inl (by omega)
        · rcases hbc with h2 | ⟨h2, h2b⟩
          · exact Or.inl (by omega)
          · exact Or.inr ⟨by omega, ih ys zs h1b h2b⟩

theorem bytesLt_total (a : Bytes) :
    ∀ b : Bytes, a ≠ b → bytesLt a b = true ∨ bytesLt b a = true := by
  induction a with
  | nil =>
    intro b hne
    cases b with
    | nil => exact absurd rfl hne
    | cons y ys => exact Or.inl rfl
  | cons x xs ih =>
    intro b hne
    cases b with
    | nil => exact Or.inr rfl
    | cons y ys =>
      rw [bytesLt_cons_iff, bytesLt_cons_iff]
      by_cases hxy : x = y
      · subst hxy
        have hne2 : xs ≠ ys := fun h => hne (by rw [h])
        rcases ih ys hne2 with h | h
        · exact Or.inl (Or.inr ⟨rfl, h⟩)
        · exact Or.inr (Or.inr ⟨rfl, h⟩)
      · rcases Nat.lt_or_ge x y with h | h
        · exact Or.inl (Or.inl h)
        · exact Or.inr (Or.inl (by omega))

theorem div_mod_lt_iff (B a b : Nat) (hB : 0 < B) :
    (a / B < b / B ∨ (a / B = b / B ∧ a % B < b % B)) ↔ a < b := by
  have ha := Nat.div_add_mod a B
  have hb := Nat.div_add_mod b B
  have hra : a % B < B := Nat.mod_lt _ hB
  have hrb : b % B < B := Nat.mod_lt _ hB
  constructor
  · rintro (h | ⟨h1, h2⟩)
    · have h3 : a / B + 1 ≤ b / B := h
      have h5 : B * (a / B) + B = B * (a / B + 1) := (Nat.mul_succ B (a / B)).symm
      have h6 : B * (a / B + 1) ≤ B * (b / B) := Nat.mul_le_mul_left B h3
      omega
    · have h3 : B * (a / B) = B * (b / B) := by rw [h1]
      omega
  · intro h
    rcases Nat.lt_trichotomy (a / B) (b / B) with h1 | h1 | h1
    · exact Or.inl h1
    · refine Or.inr ⟨h1, ?_⟩
      have h3 : B * (a / B) = B * (b / B) := by rw [h1]
      omega
    · exfalso
      have h3 : b / B + 1 ≤ a / B := h1
      have h5 : B * (b / B) + B = B * (b / B + 1) := (Nat.mul_succ B (b / B)).symm
      have h6 : B * (b / B + 1) ≤ B * (a / B) := Nat.mul_le_mul_left B h3
      omega

theorem beBytes_lt_iff (k : Nat) :
    ∀ a b : Nat, a < 2 ^ (8 * k) → b < 2 ^ (8 * k) →
      (bytesLt (beBytes k a) (beBytes k b) = true ↔ a < b) := by
  induction k with
  | zero =>
    intro a b ha hb
    have h1 : (2 : Nat) ^ (8 * 0) = 1 := by norm_num
    rw [h1] at ha hb
    simp only [beBytes, bytesLt]
    constructor
    · intro hf; exact absurd hf (by simp)
    · omega
  | succ k ih =>
    intro a b _ _
    have hB : 0 < 2 ^ (8 * k) := Nat.pos_pow_of_pos _ (by norm_num)
    simp only [beBytes]
    rw [bytesLt_cons_iff,
      ih (a % 2 ^ (8 * k)) (b % 2 ^ (8 * k)) (Nat.mod_lt _ hB) (Nat.mod_lt _ hB)]
    exact div_mod_lt_iff _ a b hB

theorem beBytes_start_lt_iff (k : Nat) :
    ∀ a b : Nat, a < 2 ^ (8 * k) → b < 2 ^ (8 * k) →
      (bytesLt (beBytes k a ++ [1]) (beBytes k b) = true ↔ a < b) := by
  induction k with
  | zero =>
    intro a b ha hb
    have h1 : (2 : Nat) ^ (8 * 0) = 1 := by norm_num
    rw [h1] at ha hb
    simp only [beBytes, List.nil_append, bytesLt]
    constructor
    · intro hf; exact absurd hf (by simp)
    · omega
  | succ k ih =>
    intro a b _ _
    have hB : 0 < 2 ^ (8 * k) := Nat.pos_pow_of_pos _ (by norm_num)
    simp only [beBytes, List.cons_append]
    rw [bytesLt_cons_iff,
      ih (a % 2 ^ (8 * k)) (b % 2 ^ (8 * k)) (Nat.mod_lt _ hB) (Nat.mod_lt _ hB)]
    exact div_mod_lt_iff _ a b hB

theorem to_be_bytes_lt_iff (a b : Nat) (ha : a < 2 ^ 64) (hb : b < 2 ^ 64) :
    bytesLt (to_be_bytes a) (to_be_bytes b) = true ↔ a < b :=
  beBytes_lt_iff 8 a b (by norm_num at ha ⊢; omega) (by norm_num at hb ⊢; omega)

theorem to_be_bytes_start_lt_iff (a b : Nat) (ha : a < 2 ^ 64) (hb : b < 2 ^ 64) :
    bytesLt (to_be_bytes a ++ [1]) (to_be_bytes b) = true ↔ a < b :=
  beBytes_start_lt_iff 8 a b (by norm_num at ha ⊢; omega) (by norm_num at hb ⊢; omega)

theorem to_be_bytes_inj (a b : Nat) (ha : a < 2 ^ 64) (hb : b < 2 ^ 64)
    (h : to_be_bytes a = to_be_bytes b) : a = b := by
  by_contra hne
  rcases Nat.lt_or_ge a b with hlt | hge
  · have h2 := (to_be_bytes_lt_iff a b ha hb).2 hlt
    rw [h, bytesLt_irrefl] at h2
    exact absurd h2 (by simp)
  · have hlt : b < a := by omega
    have h2 := (to_be_bytes_lt_iff b a hb ha).2 hlt
    rw [h, bytesLt_irrefl] at h2
    exact absurd h2 (by simp)

theorem pairLt_iff (a b : String × Bytes) :
    pairLt a b = true ↔ a.1 < b.1 ∨ (a.1 = b.1 ∧ bytesLt a.2 b.2 = true) := by
  simp only [pairLt]
  split
  case isTrue h => simp [h]
  case isFalse h =>
    split
    case isTrue h2 => simp [h, h2]
    case isFalse h2 =>
      constructor
      · intro hf; exact absurd hf (by simp)
      · rintro (h3 | ⟨h3, _⟩)
        · exact absurd h3 h
        · exact absurd h3 h2

theorem pairLt_irrefl (a : String × Bytes) : pairLt a a = false := by
  by_contra h
  have h2 : pairLt a a = true := by
    cases h3 : pairLt a a
    · exact absurd h3 h
    · rfl
  rcases (pairLt_iff a a).1 h2 with h3 | ⟨_, h3⟩
  · exact absurd h3 (lt_irrefl _)
  · rw [bytesLt_irrefl] at h3
    exact absurd h3 (by simp)

theorem pairLt_trans (a b c : String × Bytes) (hab : pairLt a b = true)
    (hbc : pairLt b c = true) : pairLt a c = true := by
  rw [pairLt_iff] at hab hbc ⊢
  rcases hab with h1 | ⟨h1, h1b⟩
  · rcases hbc with h2 | ⟨h2, h2b⟩
    · exact Or.inl (lt_trans h1 h2)
    · exact Or.inl (h2 ▸ h1)
  · rcases hbc with h2 | ⟨h2, h2b⟩
    · exact Or.inl (h1 ▸ h2)
    · exact Or.inr ⟨h1.trans h2, bytesLt_trans _ _ _ h1b h2b⟩

theorem pairLt_total (a b : String × Bytes) (hne : a ≠ b) :
    pairLt a b = true ∨ pairLt b a = true := by
  rw [pairLt_iff, pairLt_iff]
  by_cases h1 : a.1 = b.1
  · have h2 : a.2 ≠ b.2 := by
      intro h2
      exact hne (Prod.ext h1 h2)
    rcases bytesLt_total a.2 b.2 h2 with h3 | h3
    · exact Or.inl (Or.inr ⟨h1, h3⟩)
    · exact Or.inr (Or.inr ⟨h1.symm, h3⟩)
  · rcases lt_or_gt_of_ne h1 with h2 | h2
    · exact Or.inl (Or.inl h2)
    · exact Or.inr (Or.inl h2)

/-! ### Lemmas about the sorted association-list store -/

section KVLemmas

variable {κ α : Type} [DecidableEq κ]

theorem mem_kvSave_elim (lt : κ → κ → Bool) (m : List (κ × α)) (k : κ) (v : α)
    (p : κ × α) (hp : p ∈ kvSave lt m k v) : p = (k, v) ∨ p ∈ m := by
  induction m with
  | nil => simpa [kvSave] using hp
  | cons q rest ih =>
    simp only [kvSave] at hp
    split at hp
    · rcases List.mem_cons.1 hp with h | h
      · exact Or.inl h
      · exact Or.inr h
    · split at hp
      · rcases List.mem_cons.1 hp with h | h
        · exact Or.inl h
        · exact Or.inr (List.mem_cons_of_mem _ h)
      · rcases List.mem_cons.1 hp with h | h
        · exact Or.inr (h ▸ List.mem_cons_self _ _)
        · rcases ih h with h2 | h2
          · exact Or.inl h2
          · exact Or.inr (List.mem_cons_of_mem _ h2)

theorem mem_kvSave (lt : κ → κ → Bool) (hirr : ∀ x, lt x x = false)
    (htrans : ∀ x y z, lt x y = true → lt y z = true → lt x z = true)
    (m : List (κ × α)) (hm : List.Pairwise (fun p q => lt p.1 q.1 = true) m)
    (k : κ) (v : α) (p : κ × α) :
    p ∈ kvSave lt m k v ↔ p = (k, v) ∨ (p ∈ m ∧ p.1 ≠ k) := by
  induction m with
  | nil => simp [kvSave]
  | cons q rest ih =>
    have hq := List.pairwise_cons.1 hm
    simp only [kvSave]
    split
    case isTrue hkq =>
      have hknot : ∀ r ∈ q :: rest, r.1 ≠ k := by
        intro r hr he
        rcases List.mem_cons.1 hr with h | h
        · rw [h] at he; rw [he] at hkq; rw [hirr] at hkq; exact absurd hkq (by simp)
        · have h2 := htrans _ _ _ hkq (hq.1 r h)
          rw [he] at h2; rw [hirr] at h2; exact absurd h2 (by simp)
      constructor
      · intro hp
        rcases List.mem_cons.1 hp with h | h
        · exact Or.inl h
        · exact Or.inr ⟨h, hknot _ h⟩
      · rintro (h | ⟨h, _⟩)
        · exact h ▸ List.mem_cons_self _ _
        · exact List.mem_cons_of_mem _ h
    case isFalse hkq =>
      split
      case isTrue hkeq =>
        constructor
        · intro hp
          rcases List.mem_cons.1 hp with h | h
          · exact Or.inl h
          · refine Or.inr ⟨List.mem_cons_of_mem _ h, ?_⟩
            intro he
            have h2 := hq.1 p h
            rw [he, ← hkeq] at h2
            rw [hirr] at h2
            exact absurd h2 (by simp)
        · rintro (h | ⟨h, hne⟩)
          · exact h ▸ List.mem_cons_self _ _
          · rcases List.mem_cons.1 h with h2 | h2
            · exact absurd (by rw [h2, ← hkeq]) hne
            · exact List.mem_cons_of_mem _ h2
      case isFalse hkne =>
        rw [List.mem_cons, ih hq.2]
        constructor
        · rintro (h | h | ⟨h, hne⟩)
          · refine Or.inr ⟨h ▸ List.mem_cons_self _ _, ?_⟩
            rw [h]
            exact fun he => hkne he.symm
          · exact Or.inl h
          · exact Or.inr ⟨List.mem_cons_of_mem _ h, hne⟩
        · rintro (h | ⟨h, hne⟩)
          · exact Or.inr (Or.inl h)
          · rcases List.mem_cons.1 h with h2 | h2
            · exact Or.inl h2
            · exact Or.inr (Or.inr ⟨h2, hne⟩)

theorem pairwise_kvSave (lt : κ → κ → Bool)
    (htrans : ∀ x y z, lt x y = true → lt y z = true → lt x z = true)
    (htot : ∀ x y, x ≠ y → lt x y = true ∨ lt y x = true)
    (m : List (κ × α)) (hm : List.Pairwise (fun p q => lt p.1 q.1 = true) m)
    (k : κ) (v : α) :
    List.Pairwise (fun p q => lt p.1 q.1 = true) (kvSave lt m k v) := by
  induction m with
  | nil => simp [kvSave]
  | cons q rest ih =>
    have hq := List.pairwise_cons.1 hm
    simp only [kvSave]
    split
    case isTrue hkq =>
      refine List.pairwise_cons.2 ⟨?_, hm⟩
      intro r hr
      rcases List.mem_cons.1 hr with h | h
      · rw [h]; exact hkq
      · exact htrans _ _ _ hkq (hq.1 r h)
    case isFalse hkq =>
      split
      case isTrue hkeq =>
        refine List.pairwise_cons.2 ⟨?_, hq.2⟩
        intro r hr
        rw [hkeq]
        exact hq.1 r hr
      case isFalse hkne =>
        refine List.pairwise_cons.2 ⟨?_, ih hq.2⟩
        intro r hr
        rcases mem_kvSave_elim lt rest k v r hr with h | h
        · rw [h]
          rcases htot k q.1 hkne with h2 | h2
          · exact absurd h2 hkq
          · exact h2
        · exact hq.1 r h

theorem pairwise_kvRemove (lt : κ → κ → Bool) (m : List (κ × α)) (k : κ)
    (hm : List.Pairwise (fun p q => lt p.1 q.1 = true) m) :
    List.Pairwise (fun p q => lt p.1 q.1 = true) (kvRemove m k) :=
  hm.sublist (List.filter_sublist m)

theorem mem_kvRemove (m : List (κ × α)) (k : κ) (p : κ × α) :
    p ∈ kvRemove m k ↔ p ∈ m ∧ p.1 ≠ k := by
  simp [kvRemove, List.mem_filter]

theorem nodup_keys_of_pairwise (lt : κ → κ → Bool) (hirr : ∀ x, lt x x = false)
    (m : List (κ × α)) (hm : List.Pairwise (fun p q => lt p.1 q.1 = true) m) :
    (m.map Prod.fst).Nodup := by
  have h2 : List.Pairwise (fun p q : κ × α => p.1 ≠ q.1) m := by
    refine hm.imp ?_
    intro a b hab he
    rw [he, hirr] at hab
    exact absurd hab (by simp)
  exact List.pairwise_map.2 h2

theorem mem_of_kvLoad_eq_some (m : List (κ × α)) (k : κ) (v : α)
    (h : kvLoad m k = some v) : (k, v) ∈ m := by
  induction m with
  | nil => simp [kvLoad] at h
  | cons q rest ih =>
    by_cases hk : q.1 = k
    · have hload : kvLoad (q :: rest) k = some q.2 := by
        simp [kvLoad, List.find?, hk]
      rw [hload] at h
      replace h : q.2 = v := by injection h
      have hq : q = (k, v) := by
        obtain ⟨q1, q2⟩ := q
        simp only at hk h
        rw [hk, h]
      rw [← hq]
      exact List.mem_cons_self _ _
    · have : kvLoad (q :: rest) k = kvLoad rest k := by
        simp [kvLoad, List.find?, hk]
      rw [this] at h
      exact List.mem_cons_of_mem _ (ih h)

theorem kvLoad_eq_some_of_mem (m : List (κ × α)) (hm : (m.map Prod.fst).Nodup)
    (k : κ) (v : α) (h : (k, v) ∈ m) : kvLoad m k = some v := by
  induction m with
  | nil => simp at h
  | cons q rest ih =>
    simp only [List.map_cons, List.nodup_cons] at hm
    rcases List.mem_cons.1 h with h2 | h2
    · rw [← h2]
      simp [kvLoad, List.find?]
    · have hk : q.1 ≠ k := by
        intro he
        exact hm.1 (he ▸ (List.mem_map.2 ⟨(k, v), h2, rfl⟩))
      have : kvLoad (q :: rest) k = kvLoad rest k := by
        simp [kvLoad, List.find?, hk]
      rw [this]
      exact ih hm.2 h2

theorem kvLoad_uniq (m : List (κ × α)) (hm : (m.map Prod.fst).Nodup)
    {k : κ} {a b : α} (ha : (k, a) ∈ m) (hb : (k, b) ∈ m) : a = b := by
  have h1 := kvLoad_eq_some_of_mem m hm k a ha
  have h2 := kvLoad_eq_some_of_mem m hm k b hb
  rw [h1] at h2
  injection h2

theorem kvLoad_kvSave_self (lt : κ → κ → Bool) (m : List (κ × α)) (k : κ) (v : α) :
    kvLoad (kvSave lt m k v) k = some v := by
  induction m with
  | nil => simp [kvSave, kvLoad, List.find?]
  | cons q rest ih =>
    simp only [kvSave]
    split
    · simp [kvLoad, List.find?]
    · split
      · simp [kvLoad, List.find?]
      case isFalse h1 h2 =>
        have hk : q.1 ≠ k := fun he => h2 he.symm
        have h3 : kvLoad (q :: kvSave lt rest k v) k = kvLoad (kvSave lt rest k v) k := by
          simp [kvLoad, List.find?, hk]
        rw [h3]
        exact ih

theorem kvLoad_kvRemove_self (m : List (κ × α)) (k : κ) :
    kvLoad (kvRemove m k) k = none := by
  have h : ∀ p ∈ kvRemove m k, ¬(decide (p.1 = k) = true) := by
    intro p hp
    have h2 := (mem_kvRemove m k p).1 hp
    simp only [decide_eq_true_eq]
    exact h2.2
  simp only [kvLoad]
  rw [List.find?_eq_none.2 h]
  rfl

end KVLemmas

/-! ### Shape lemmas for the contract operations -/

theorem store_new_order_error_state (s : State) (o : OrderInfo) (s2 : State)
    (e : StdError) (h : store_new_order s o = (s2, Except.error e)) : s2 = s := by
  simp only [store_new_order] at h
  split at h
  · simp at h
  · injection h with h1 _
    exact h1.symm

theorem store_new_order_ok_spec (s : State) (o : OrderInfo) (s2 : State) (o2 : OrderInfo)
    (h : store_new_order s o = (s2, Except.ok o2)) :
    s2.last_order_id = s.last_order_id + 1 ∧
    o2 = { o with order_id := s.last_order_id + 1 } ∧
    s2.config = s.config ∧
    s2.orders = kvSave bytesLt s.orders (to_be_bytes (s.last_order_id + 1)) o2 ∧
    s2.orders_by_user =
      kvSave pairLt s.orders_by_user (o.bidder_addr, to_be_bytes (s.last_order_id + 1)) true ∧
    s.last_order_id + 1 < 2 ^ 64 := by
  simp only [store_new_order] at h
  split at h
  case isTrue hlt =>
    injection h with h1 h2
    injection h2 with h2b
    subst h2b
    subst h1
    exact ⟨rfl, rfl, rfl, rfl, rfl, hlt⟩
  case isFalse => simp at h

theorem submit_order_ok_spec (pq : Option PairInfo) (s : State) (env : Env)
    (info : MessageInfo) (oa aa : Asset) (fa : Nat) (s2 : State) (r : Response)
    (h : submit_order pq s env info oa aa fa = (s2, Except.ok r)) :
    ∃ pi o2, pq = some pi ∧
      store_new_order s
        { order_id := 0, bidder_addr := info.sender, pair_addr := pi.contract_addr,
          offer_asset := oa, ask_asset := aa, fee_amount := fa } = (s2, Except.ok o2) := by
  simp only [submit_order] at h
  split at h
  · simp at h
  · split at h
    · simp at h
    case h_2 pi =>
      split at h
      · simp at h
      · split at h
        case h_1 s1 e heq =>
          simp at h
        case h_2 s1 stored heq =>
          injection h with h1 _
          subst h1
          exact ⟨pi, stored, rfl, heq⟩

theorem submit_order_error_state (pq : Option PairInfo) (s : State) (env : Env)
    (info : MessageInfo) (oa aa : Asset) (fa : Nat) (s2 : State) (e : StdError)
    (h : submit_order pq s env info oa aa fa = (s2, Except.error e)) : s2 = s := by
  simp only [submit_order] at h
  split at h
  · injection h with h1 _
    exact h1.symm
  · split at h
    · injection h with h1 _
      exact h1.symm
    · split at h
      · injection h with h1 _
        exact h1.symm
      · split at h
        case h_1 s1 e0 heq =>
          injection h with h1 _
          subst h1
          exact store_new_order_error_state _ _ _ _ heq
        case h_2 => simp at h

theorem cancel_order_none (s : State) (info : MessageInfo) (oid : Nat)
    (h : kvLoad s.orders (to_be_bytes oid) = none) :
    cancel_order s info oid = (s, Except.error StdError.notFound) := by
  simp only [cancel_order, h]

theorem cancel_order_unauth (s : State) (info : MessageInfo) (oid : Nat)
    (order : OrderInfo) (h : kvLoad s.orders (to_be_bytes oid) = some order)
    (hne : order.bidder_addr ≠ info.sender) :
    cancel_order s info oid = (s, Except.error StdError.unauthorized) := by
  simp only [cancel_order, h]
  rw [if_pos hne]

theorem cancel_order_ok_spec (s : State) (info : MessageInfo) (oid : Nat)
    (order : OrderInfo) (h : kvLoad s.orders (to_be_bytes oid) = some order)
    (he : order.bidder_addr = info.sender) :
    cancel_order s info oid =
      (remove_order s order,
       Except.ok
         { messages := [into_msg order.offer_asset order.bidder_addr,
                        into_msg { info := AssetInfo.Token s.config.fee_token,
                                   amount := order.fee_amount } order.bidder_addr],
           attributes := [("action", "cancel_order"), ("order_id", toString oid),
                          ("refunded_asset", assetToString order.offer_asset),
                          ("refunded_fee",
                           assetToString { info := AssetInfo.Token s.config.fee_token,
                                           amount := order.fee_amount })] }) := by
  simp only [cancel_order, h]
  rw [if_neg (fun hne => hne he)]

theorem execute_order_not_found (sim : Option SimulationResponse) (s : State)
    (info : MessageInfo) (oid : Nat) (h : kvLoad s.orders (to_be_bytes oid) = none) :
    execute_order sim s info oid = (s, Except.error StdError.notFound) := by
  simp only [execute_order, h]

theorem execute_order_no_sim (s : State) (info : MessageInfo) (oid : Nat)
    (order : OrderInfo) (h : kvLoad s.orders (to_be_bytes oid) = some order) :
    execute_order none s info oid = (s, Except.error StdError.venueUnavailable) := by
  simp only [execute_order, h]

theorem execute_order_insufficient (R : SimulationResponse) (s : State)
    (info : MessageInfo) (oid : Nat) (order : OrderInfo)
    (h : kvLoad s.orders (to_be_bytes oid) = some order)
    (hlt : R.return_amount < order.ask_asset.amount) :
    execute_order (some R) s info oid = (s, Except.error StdError.insufficientReturn) := by
  simp only [execute_order, h]
  rw [if_pos hlt]

theorem execute_order_ok_spec (R : SimulationResponse) (s : State) (info : MessageInfo)
    (oid : Nat) (order : OrderInfo)
    (h : kvLoad s.orders (to_be_bytes oid) = some order)
    (hge : order.ask_asset.amount ≤ R.return_amount) :
    execute_order (some R) s info oid =
      (remove_order s order,
       Except.ok
         { messages := ([make_swap_msg order, into_msg order.ask_asset order.bidder_addr] ++
             (if 0 < R.return_amount - order.ask_asset.amount then
               [into_msg { amount := R.return_amount - order.ask_asset.amount,
                           info := order.ask_asset.info } info.sender]
              else [])) ++
             [into_msg { amount := order.fee_amount,
                         info := AssetInfo.Token s.config.fee_token } info.sender],
           attributes := [("action", "execute_order"), ("order_id", toString order.order_id),
                          ("fee_amount", toString order.fee_amount),
                          ("excess_amount",
                           toString (R.return_amount - order.ask_asset.amount))] }) := by
  simp only [execute_order, h]
  rw [if_neg (not_lt.2 hge)]
  simp only [uint128_sub, if_pos hge]

/-! ### The storage invariant and its preservation -/

theorem inv_init (msg : InstantiateMsg) : Inv (instantiate msg) := by
  constructor <;> simp [instantiate]

theorem load_key_coherent (s : State) (hs : Inv s) (oid : Nat) (order : OrderInfo)
    (h : kvLoad s.orders (to_be_bytes oid) = some order) :
    (to_be_bytes order.order_id, order) ∈ s.orders := by
  have hm := mem_of_kvLoad_eq_some _ _ _ h
  have hc := hs.coherent _ hm
  simp only at hc
  rw [hc] at hm
  exact hm

theorem inv_store_new_order (s : State) (o : OrderInfo) (s2 : State) (o2 : OrderInfo)
    (hs : Inv s) (h : store_new_order s o = (s2, Except.ok o2)) : Inv s2 := by
  obtain ⟨hlast, ho2, _, hord, hidx, hbound⟩ := store_new_order_ok_spec s o s2 o2 h
  have hfresh : ∀ o3 : OrderInfo, (to_be_bytes (s.last_order_id + 1), o3) ∉ s.orders := by
    intro o3 hmem
    have hc := hs.coherent _ hmem
    have hb := hs.idBound _ hmem
    simp only at hc hb
    have ho3 : o3.order_id < 2 ^ 64 := lt_of_le_of_lt hb hs.lastBound
    have he := to_be_bytes_inj (s.last_order_id + 1) o3.order_id hbound ho3 hc
    omega
  have ho2id : o2.order_id = s.last_order_id + 1 := by rw [ho2]
  have ho2b : o2.bidder_addr = o.bidder_addr := by rw [ho2]
  constructor
  · intro p hp
    rw [hord] at hp
    rcases mem_kvSave_elim _ _ _ _ _ hp with h2 | h2
    · rw [h2]
      simp only
      rw [ho2id]
    · exact hs.coherent p h2
  · intro p hp
    rw [hord] at hp
    rw [hlast]
    rcases mem_kvSave_elim _ _ _ _ _ hp with h2 | h2
    · rw [h2]
      simp only
      omega
    · have := hs.idBound p h2
      omega
  · rw [hlast]
    exact hbound
  · rw [hord]
    exact pairwise_kvSave bytesLt bytesLt_trans bytesLt_total s.orders hs.sortedOrders _ _
  · rw [hidx]
    exact pairwise_kvSave pairLt pairLt_trans pairLt_total _ hs.sortedIdx _ _
  · intro u kb
    rw [hord, hidx]
    rw [mem_kvSave pairLt pairLt_irrefl pairLt_trans _ hs.sortedIdx _ _ _]
    constructor
    · rintro (heq | ⟨hmem, hne⟩)
      · have hu : u = o.bidder_addr := by
          have := congrArg (fun p => p.1.1) heq
          simpa using this
        have hkb : kb = to_be_bytes (s.last_order_id + 1) := by
          have := congrArg (fun p => p.1.2) heq
          simpa using this
        refine ⟨o2, ?_, by rw [ho2b, hu]⟩
        rw [mem_kvSave bytesLt bytesLt_irrefl bytesLt_trans _ hs.sortedOrders _ _ _]
        exact Or.inl (by rw [hkb])
      · rcases (hs.sync u kb).1 hmem with ⟨o3, hm3, hb3⟩
        refine ⟨o3, ?_, hb3⟩
        rw [mem_kvSave bytesLt bytesLt_irrefl bytesLt_trans _ hs.sortedOrders _ _ _]
        refine Or.inr ⟨hm3, ?_⟩
        intro hkeq
        simp only at hkeq
        rw [hkeq] at hm3
        exact hfresh o3 hm3
    · rintro ⟨o3, hm3, hb3⟩
      rw [mem_kvSave bytesLt bytesLt_irrefl bytesLt_trans _ hs.sortedOrders _ _ _] at hm3
      rcases hm3 with h2 | ⟨h2, hne⟩
      · have hkb : kb = to_be_bytes (s.last_order_id + 1) := by
          have := congrArg Prod.fst h2
          simpa using this
        have ho3 : o3 = o2 := by
          have := congrArg Prod.snd h2
          simpa using this
        left
        have hu : o.bidder_addr = u := by rw [← hb3, ho3, ho2b]
        rw [hkb, hu]
      · right
        refine ⟨(hs.sync u kb).2 ⟨o3, h2, hb3⟩, ?_⟩
        intro hkeq
        have : kb = to_be_bytes (s.last_order_id + 1) := by
          have := congrArg Prod.snd hkeq
          simpa using this
        exact hne (by simpa using this)

theorem inv_remove_order (s : State) (order : OrderInfo) (hs : Inv s)
    (hmem : (to_be_bytes order.order_id, order) ∈ s.orders) :
    Inv (remove_order s order) := by
  have hnodup := nodup_keys_of_pairwise bytesLt bytesLt_irrefl _ hs.sortedOrders
  simp only [remove_order]
  constructor
  · intro p hp
    exact hs.coherent p ((mem_kvRemove _ _ _).1 hp).1
  · intro p hp
    exact hs.idBound p ((mem_kvRemove _ _ _).1 hp).1
  · exact hs.lastBound
  · exact pairwise_kvRemove bytesLt _ _ hs.sortedOrders
  · exact pairwise_kvRemove pairLt _ _ hs.sortedIdx
  · intro u kb
    dsimp only
    simp only [mem_kvRemove]
    constructor
    · rintro ⟨hmem2, hne⟩
      rcases (hs.sync u kb).1 hmem2 with ⟨o3, hm3, hb3⟩
      refine ⟨o3, ⟨hm3, ?_⟩, hb3⟩
      intro hkeq
      have ho3 : o3 = order := by
        rw [hkeq] at hm3
        exact kvLoad_uniq s.orders hnodup hm3 hmem
      apply hne
      rw [hkeq, ← hb3, ho3]
    · rintro ⟨o3, ⟨hm3, hkne⟩, hb3⟩
      refine ⟨(hs.sync u kb).2 ⟨o3, hm3, hb3⟩, ?_⟩
      intro heq
      apply hkne
      have := congrArg Prod.snd heq
      simpa using this

theorem inv_step {s s2 : State} (hs : Inv s) (hstep : Step s s2) : Inv s2 := by
  rcases hstep with ⟨pq, sim, env, info, msg, s, s2, r, h⟩
  cases msg with
  | SubmitOrder oa aa fa =>
    obtain ⟨pi, o2, _, hstore⟩ := submit_order_ok_spec pq s env info oa aa fa s2 r h
    exact inv_store_new_order s _ s2 o2 hs hstore
  | CancelOrder oid =>
    simp only [execute] at h
    rcases hcase : kvLoad s.orders (to_be_bytes oid) with _ | order
    · rw [cancel_order_none s info oid hcase] at h
      simp at h
    · by_cases hb : order.bidder_addr = info.sender
      · rw [cancel_order_ok_spec s info oid order hcase hb] at h
        injection h with h1 _
        rw [← h1]
        exact inv_remove_order s order hs (load_key_coherent s hs oid order hcase)
      · rw [cancel_order_unauth s info oid order hcase hb] at h
        simp at h
  | ExecuteOrder oid =>
    simp only [execute] at h
    rcases hcase : kvLoad s.orders (to_be_bytes oid) with _ | order
    · rw [execute_order_not_found sim s info oid hcase] at h
      simp at h
    · cases sim with
      | none =>
        rw [execute_order_no_sim s info oid order hcase] at h
        simp at h
      | some R =>
        by_cases hge : order.ask_asset.amount ≤ R.return_amount
        · rw [execute_order_ok_spec R s info oid order hcase hge] at h
          injection h with h1 _
          rw [← h1]
          exact inv_remove_order s order hs (load_key_coherent s hs oid order hcase)
        · rw [execute_order_insufficient R s info oid order hcase (by omega)] at h
          simp at h

theorem reachable_inv {s : State} (h : Reachable s) : Inv s := by
  induction h with
  | init msg => exact inv_init msg
  | step _ hstep ih => exact inv_step ih hstep

theorem cancel_order_error_state (s : State) (info : MessageInfo) (oid : Nat)
    (s2 : State) (e : StdError)
    (h : cancel_order s info oid = (s2, Except.error e)) : s2 = s := by
  rcases hcase : kvLoad s.orders (to_be_bytes oid) with _ | order
  · rw [cancel_order_none s info oid hcase] at h
    injection h with h1 _
    exact h1.symm
  · by_cases hb : order.bidder_addr = info.sender
    · rw [cancel_order_ok_spec s info oid order hcase hb] at h
      simp at h
    · rw [cancel_order_unauth s info oid order hcase hb] at h
      injection h with h1 _
      exact h1.symm

theorem execute_order_error_state (sim : Option SimulationResponse) (s : State)
    (info : MessageInfo) (oid : Nat) (s2 : State) (e : StdError)
    (h : execute_order sim s info oid = (s2, Except.error e)) : s2 = s := by
  rcases hcase : kvLoad s.orders (to_be_bytes oid) with _ | order
  · rw [execute_order_not_found sim s info oid hcase] at h
    injection h with h1 _
    exact h1.symm
  · cases sim with
    | none =>
      rw [execute_order_no_sim s info oid order hcase] at h
      injection h with h1 _
      exact h1.symm
    | some R =>
      by_cases hge : order.ask_asset.amount ≤ R.return_amount
      · rw [execute_order_ok_spec R s info oid order hcase hge] at h
        simp at h
      · rw [execute_order_insufficient R s info oid order hcase (by omega)] at h
        injection h with h1 _
        exact h1.symm

/-! ### Pagination lemmas -/

theorem load_order_keys_length (orders : List (Bytes × OrderInfo)) :
    ∀ (ks : List Bytes) (rs : List OrderInfo),
      load_order_keys orders ks = Except.ok rs → rs.length = ks.length := by
  intro ks
  induction ks with
  | nil =>
    intro rs h
    simp only [load_order_keys] at h
    injection h with h1
    rw [← h1]
    rfl
  | cons k ks ih =>
    intro rs h
    simp only [load_order_keys] at h
    rcases hk : kvLoad orders k with _ | o
    · rw [hk] at h
      simp at h
    · rw [hk] at h
      rcases hrest : load_order_keys orders ks with e | rest
      · rw [hrest] at h
        simp at h
      · rw [hrest] at h
        injection h with h1
        rw [← h1]
        simp [ih rest hrest]

theorem load_order_keys_mem (orders : List (Bytes × OrderInfo)) :
    ∀ (ks : List Bytes) (rs : List OrderInfo),
      load_order_keys orders ks = Except.ok rs →
      ∀ o ∈ rs, ∃ k ∈ ks, kvLoad orders k = some o := by
  intro ks
  induction ks with
  | nil =>
    intro rs h o ho
    simp only [load_order_keys] at h
    injection h with h1
    rw [← h1] at ho
    simp at ho
  | cons k ks ih =>
    intro rs h o ho
    simp only [load_order_keys] at h
    rcases hk : kvLoad orders k with _ | o2
    · rw [hk] at h
      simp at h
    · rw [hk] at h
      rcases hrest : load_order_keys orders ks with e | rest
      · rw [hrest] at h
        simp at h
      · rw [hrest] at h
        injection h with h1
        rw [← h1] at ho
        rcases List.mem_cons.1 ho with h2 | h2
        · exact ⟨k, List.mem_cons_self _ _, h2 ▸ hk⟩
        · rcases ih rest hrest o h2 with ⟨k2, hk2, hl2⟩
          exact ⟨k2, List.mem_cons_of_mem _ hk2, hl2⟩

theorem read_orders_length (s : State) (sa : Option Nat) (lim : Option Nat)
    (ob : Option OrderBy) :
    (read_orders s sa lim ob).length ≤ min (lim.getD DEFAULT_LIMIT) MAX_LIMIT := by
  rcases ob with _ | ob
  · simp only [read_orders, List.length_map, List.length_take]
    omega
  · cases ob <;>
      (simp only [read_orders, List.length_map, List.length_take]; omega)

theorem read_orders_by_user_length (s : State) (u : String) (sa : Option Nat)
    (lim : Option Nat) (ob : Option OrderBy) (rs : List OrderInfo)
    (h : read_orders_by_user s u sa lim ob = Except.ok rs) :
    rs.length ≤ min (lim.getD DEFAULT_LIMIT) MAX_LIMIT := by
  rcases ob with _ | ob
  · simp only [read_orders_by_user] at h
    rw [load_order_keys_length s.orders _ rs h]
    exact List.length_take_le _ _
  · cases ob
    · simp only [read_orders_by_user] at h
      rw [load_order_keys_length s.orders _ rs h]
      exact List.length_take_le _ _
    · simp only [read_orders_by_user] at h
      rw [load_order_keys_length s.orders _ rs h]
      exact List.length_take_le _ _

theorem read_orders_asc_bound (s : State) (N : Nat) (lim : Option Nat)
    (hco : KeysCoherent s) (hN : N < 2 ^ 64) :
    ∀ o ∈ read_orders s (some N) lim (some OrderBy.Asc), N < o.order_id := by
  intro o ho
  simp only [read_orders, mapRange, calc_range_start, Option.map_some] at ho
  rcases List.mem_map.1 ho with ⟨p, hp, hpo⟩
  have hp2 := List.take_subset _ _ hp
  have hp3 := List.mem_filter.1 hp2
  have hb := hp3.2
  simp only [boundOk, Bool.and_eq_true] at hb
  obtain ⟨hk, hid⟩ := hco p hp3.1
  rw [hk] at hb
  have h2 := (to_be_bytes_start_lt_iff N p.2.order_id hN hid).1 hb.1
  rw [← hpo]
  exact h2

theorem read_orders_desc_bound (s : State) (N : Nat) (lim : Option Nat)
    (hco : KeysCoherent s) (hN : N < 2 ^ 64) :
    ∀ o ∈ read_orders s (some N) lim (some OrderBy.Desc), o.order_id < N := by
  intro o ho
  simp only [read_orders, mapRange, calc_range_end, Option.map_some] at ho
  rcases List.mem_map.1 ho with ⟨p, hp, hpo⟩
  have hp2 := List.take_subset _ _ hp
  rw [List.mem_reverse] at hp2
  have hp3 := List.mem_filter.1 hp2
  have hb := hp3.2
  simp only [boundOk, Bool.and_eq_true] at hb
  obtain ⟨hk, hid⟩ := hco p hp3.1
  rw [hk] at hb
  have h2 := (to_be_bytes_lt_iff p.2.order_id N hid hN).1 hb.2
  rw [← hpo]
  exact h2

theorem idx_keys_bound (idx : List ((String × Bytes) × Bool)) (u : String)
    (start stop : Option Bytes) (ord : IterOrder) (k : Bytes)
    (hk : k ∈ idxRange idx u start stop ord) : boundOk start stop k = true := by
  have hk2 : k ∈ (idx.filter
      (fun p => decide (p.1.1 = u) && boundOk start stop p.1.2)).map
      (fun p => p.1.2) := by
    cases ord with
    | Ascending => exact hk
    | Descending => exact List.mem_reverse.1 hk
  rcases List.mem_map.1 hk2 with ⟨p, hp, hpk⟩
  have hp2 := (List.mem_filter.1 hp).2
  rw [Bool.and_eq_true] at hp2
  rw [← hpk]
  exact hp2.2

theorem read_orders_by_user_asc_bound (s : State) (u : String) (N : Nat)
    (lim : Option Nat) (hco : KeysCoherent s) (hN : N < 2 ^ 64)
    (rs : List OrderInfo)
    (h : read_orders_by_user s u (some N) lim (some OrderBy.Asc) = Except.ok rs) :
    ∀ o ∈ rs, N < o.order_id := by
  intro o ho
  simp only [read_orders_by_user] at h
  rcases load_order_keys_mem s.orders _ rs h o ho with ⟨k, hk, hl⟩
  have hk2 := List.take_subset _ _ hk
  have hb := idx_keys_bound _ _ _ _ _ _ hk2
  simp only [boundOk, calc_range_start, Option.map_some, Bool.and_eq_true] at hb
  have hm := mem_of_kvLoad_eq_some _ _ _ hl
  obtain ⟨hkey, hid⟩ := hco (k, o) hm
  simp only at hkey
  rw [hkey] at hb
  exact (to_be_bytes_start_lt_iff N o.order_id hN hid).1 hb.1

theorem read_orders_by_user_desc_bound (s : State) (u : String) (N : Nat)
    (lim : Option Nat) (hco : KeysCoherent s) (hN : N < 2 ^ 64)
    (rs : List OrderInfo)
    (h : read_orders_by_user s u (some N) lim (some OrderBy.Desc) = Except.ok rs) :
    ∀ o ∈ rs, o.order_id < N := by
  intro o ho
  simp only [read_orders_by_user] at h
  rcases load_order_keys_mem s.orders _ rs h o ho with ⟨k, hk, hl⟩
  have hk2 := List.take_subset _ _ hk
  have hb := idx_keys_bound _ _ _ _ _ _ hk2
  simp only [boundOk, calc_range_end, Option.map_some, Bool.and_eq_true] at hb
  have hm := mem_of_kvLoad_eq_some _ _ _ hl
  obtain ⟨hkey, hid⟩ := hco (k, o) hm
  simp only at hkey
  rw [hkey] at hb
  exact (to_be_bytes_lt_iff o.order_id N hid hN).1 hb.2

theorem read_orders_none_asc (s : State) (lim : Option Nat) :
    read_orders s none lim (some OrderBy.Asc) =
      (s.orders.take (min (lim.getD DEFAULT_LIMIT) MAX_LIMIT)).map (fun p => p.2) := by
  simp [read_orders, mapRange, calc_range_start, boundOk]

theorem read_orders_none_desc (s : State) (lim : Option Nat) :
    read_orders s none lim (some OrderBy.Desc) =
      (s.orders.reverse.take (min (lim.getD DEFAULT_LIMIT) MAX_LIMIT)).map
        (fun p => p.2) := by
  simp [read_orders, mapRange, calc_range_end, boundOk]

theorem read_orders_by_user_none_asc (s : State) (u : String) (lim : Option Nat) :
    read_orders_by_user s u none lim (some OrderBy.Asc) =
      load_order_keys s.orders
        (((s.orders_by_user.filter (fun p => decide (p.1.1 = u))).map
          (fun p => p.1.2)).take (min (lim.getD DEFAULT_LIMIT) MAX_LIMIT)) := by
  simp [read_orders_by_user, idxRange, calc_range_start, boundOk]

theorem read_orders_by_user_none_desc (s : State) (u : String) (lim : Option Nat) :
    read_orders_by_user s u none lim (some OrderBy.Desc) =
      load_order_keys s.orders
        ((((s.orders_by_user.filter (fun p => decide (p.1.1 = u))).map
          (fun p => p.1.2)).reverse.take (min (lim.getD DEFAULT_LIMIT) MAX_LIMIT))) := by
  simp [read_orders_by_user, idxRange, calc_range_end, boundOk]

/-! ### The claims -/

/-- C1: for every open order whose venue simulation returns an amount `R` with
`R ≥ ask_asset.amount`, a successful `execute_order` returns exactly, in this
order: the swap of the full offer amount at the order's pool, the transfer of
exactly `ask_asset.amount` to the owner, the transfer of the excess
`R - ask_asset.amount` (in the ask asset) to the caller if and only if that
excess is strictly positive, and the transfer of `fee_amount` of the configured
fee token to the caller; and the order is removed from storage. -/
theorem claim_C1_execute_payout (R : SimulationResponse) (s : State)
    (info : MessageInfo) (oid : Nat) (order : OrderInfo)
    (hload : kvLoad s.orders (to_be_bytes oid) = some order)
    (hge : order.ask_asset.amount ≤ R.return_amount) :
    ∃ resp, execute_order (some R) s info oid = (remove_order s order, Except.ok resp) ∧
      resp.messages =
        ([make_swap_msg order, into_msg order.ask_asset order.bidder_addr] ++
          (if 0 < R.return_amount - order.ask_asset.amount then
            [into_msg { amount := R.return_amount - order.ask_asset.amount,
                        info := order.ask_asset.info } info.sender]
           else [])) ++
          [into_msg { amount := order.fee_amount,
                      info := AssetInfo.Token s.config.fee_token } info.sender] ∧
      kvLoad (remove_order s order).orders (to_be_bytes order.order_id) = none ∧
      kvLoad (remove_order s order).orders_by_user
        (order.bidder_addr, to_be_bytes order.order_id) = none := by
  refine ⟨_, execute_order_ok_spec R s info oid order hload hge, rfl, ?_, ?_⟩
  · simp only [remove_order]
    exact kvLoad_kvRemove_self _ _
  · simp only [remove_order]
    exact kvLoad_kvRemove_self _ _

theorem claim_C1_witness :
    kvLoad testState.orders (to_be_bytes 1) = some testOrder ∧
    kvLoad (remove_order testState testOrder).orders
      (to_be_bytes testOrder.order_id) = none := by
  refine ⟨by decide, ?_⟩
  obtain ⟨resp, heq, hmsgs, hrem, hidx⟩ :=
    claim_C1_execute_payout ⟨490⟩ testState testInfoBob 1 testOrder (by decide) (by decide)
  exact hrem

/-- C2: every successful `submit_order` bumps `last_order_id` by exactly one and
stores the new order keyed by, and carrying, the new counter value; and no
`cancel_order` or `execute_order` call ever changes the counter. -/
theorem claim_C2_counter :
    (∀ pq s env info oa aa fa s2 r,
       submit_order pq s env info oa aa fa = (s2, Except.ok r) →
         s2.last_order_id = s.last_order_id + 1 ∧
         ∃ o2, kvLoad s2.orders (to_be_bytes s2.last_order_id) = some o2 ∧
           o2.order_id = s2.last_order_id) ∧
    (∀ s info oid, (cancel_order s info oid).1.last_order_id = s.last_order_id) ∧
    (∀ sim s info oid,
       (execute_order sim s info oid).1.last_order_id = s.last_order_id) := by
  refine ⟨?_, ?_, ?_⟩
  · intro pq s env info oa aa fa s2 r h
    obtain ⟨pi, o2, _, hstore⟩ := submit_order_ok_spec pq s env info oa aa fa s2 r h
    obtain ⟨hlast, ho2, _, hord, _, _⟩ := store_new_order_ok_spec s _ s2 o2 hstore
    refine ⟨hlast, o2, ?_, ?_⟩
    · rw [hord, hlast]
      exact kvLoad_kvSave_self _ _ _ _
    · rw [hlast, ho2]
  · intro s info oid
    rcases hcase : kvLoad s.orders (to_be_bytes oid) with _ | order
    · rw [cancel_order_none s info oid hcase]
    · by_cases hb : order.bidder_addr = info.sender
      · rw [cancel_order_ok_spec s info oid order hcase hb]
        simp [remove_order]
      · rw [cancel_order_unauth s info oid order hcase hb]
  · intro sim s info oid
    rcases hcase : kvLoad s.orders (to_be_bytes oid) with _ | order
    · rw [execute_order_not_found sim s info oid hcase]
    · cases sim with
      | none => rw [execute_order_no_sim s info oid order hcase]
      | some R =>
        by_cases hge : order.ask_asset.amount ≤ R.return_amount
        · rw [execute_order_ok_spec R s info oid order hcase hge]
          simp [remove_order]
        · rw [execute_order_insufficient R s info oid order hcase (by omega)]

theorem claim_C2_witness :
    testState.last_order_id = (instantiate testMsg).last_order_id + 1 :=
  (claim_C2_counter.1 (some testPair) (instantiate testMsg) testEnv testInfo testOffer
    testAsk 100 testState testResp (by decide)).1

/-- C3: for every open order, `execute_order` fails with `InsufficientReturn`
exactly when the simulated return is strictly below `ask_asset.amount`, and on
that failure the state is unchanged (no instructions, order still stored). -/
theorem claim_C3_insufficient (R : SimulationResponse) (s : State)
    (info : MessageInfo) (oid : Nat) (order : OrderInfo)
    (hload : kvLoad s.orders (to_be_bytes oid) = some order) :
    ((execute_order (some R) s info oid).2 = Except.error StdError.insufficientReturn ↔
      R.return_amount < order.ask_asset.amount) ∧
    (R.return_amount < order.ask_asset.amount →
      execute_order (some R) s info oid = (s, Except.error StdError.insufficientReturn)) := by
  constructor
  · constructor
    · intro h
      by_contra hge
      rw [execute_order_ok_spec R s info oid order hload (by omega)] at h
      simp at h
    · intro hlt
      rw [execute_order_insufficient R s info oid order hload hlt]
  · intro hlt
    exact execute_order_insufficient R s info oid order hload hlt

theorem claim_C3_witness :
    (execute_order (some ⟨400⟩) testState testInfoBob 1).2 =
      Except.error StdError.insufficientReturn :=
  (claim_C3_insufficient ⟨400⟩ testState testInfoBob 1 testOrder (by decide)).1.2
    (by decide)

/-- C4: `cancel_order` yields `NotFound` on an absent id; a non-owner caller
gets `Unauthorized` with the state unchanged; and an owner cancellation returns
exactly the two refund transfers (escrowed offer asset and fee, both to the
owner) and removes the order from both the primary table and the secondary
index. -/
theorem claim_C4_cancel (s : State) (info : MessageInfo) (oid : Nat) :
    (kvLoad s.orders (to_be_bytes oid) = none →
      cancel_order s info oid = (s, Except.error StdError.notFound)) ∧
    (∀ order, kvLoad s.orders (to_be_bytes oid) = some order →
      order.bidder_addr ≠ info.sender →
      cancel_order s info oid = (s, Except.error StdError.unauthorized)) ∧
    (∀ order, kvLoad s.orders (to_be_bytes oid) = some order →
      order.bidder_addr = info.sender →
      ∃ resp, cancel_order s info oid = (remove_order s order, Except.ok resp) ∧
        resp.messages = [into_msg order.offer_asset order.bidder_addr,
          into_msg { info := AssetInfo.Token s.config.fee_token,
                     amount := order.fee_amount } order.bidder_addr] ∧
        kvLoad (remove_order s order).orders (to_be_bytes order.order_id) = none ∧
        kvLoad (remove_order s order).orders_by_user
          (order.bidder_addr, to_be_bytes order.order_id) = none) := by
  refine ⟨fun h => cancel_order_none s info oid h,
    fun order h hne => cancel_order_unauth s info oid order h hne, ?_⟩
  intro order h he
  refine ⟨_, cancel_order_ok_spec s info oid order h he, rfl, ?_, ?_⟩
  · simp only [remove_order]
    exact kvLoad_kvRemove_self _ _
  · simp only [remove_order]
    exact kvLoad_kvRemove_self _ _

theorem claim_C4_witness :
    cancel_order testState testInfoBob 1 = (testState, Except.error StdError.unauthorized) :=
  (claim_C4_cancel testState testInfoBob 1).2.1 testOrder (by decide) (by decide)

/-- C5: in every reachable state, a marker exists in the secondary
`(owner, order id)` index if and only if the corresponding order exists in the
primary table with that owner: the two stores never diverge. -/
theorem claim_C5_index_sync (s : State) (h : Reachable s) :
    ∀ u kb, ((u, kb), true) ∈ s.orders_by_user ↔
      ∃ o, (kb, o) ∈ s.orders ∧ o.bidder_addr = u :=
  (reachable_inv h).sync

theorem claim_C5_witness :
    (("alice", to_be_bytes 1), true) ∈ testState.orders_by_user ↔
      ∃ o, (to_be_bytes 1, o) ∈ testState.orders ∧ o.bidder_addr = "alice" := by
  have hreach : Reachable testState :=
    Reachable.step (Reachable.init testMsg)
      (Step.exec (some testPair) none testEnv testInfo
        (ExecuteMsg.SubmitOrder testOffer testAsk 100) (instantiate testMsg) testState
        testResp (by decide))
  exact claim_C5_index_sync testState hreach "alice" (to_be_bytes 1)

/-- C6: for every listing (global or owner-scoped), at most
`min(limit, 30)` orders are returned (at most 10 when `limit` is absent);
with `start_after = N`, ascending listings return only orders with id
strictly greater than `N` and descending listings only orders with id strictly
less than `N`; with no cursor the listing starts from the beginning of the
requested direction. -/
theorem claim_C6_pagination (s : State) (N : Nat) (lim : Option Nat)
    (hco : KeysCoherent s) (hN : N < 2 ^ 64) :
    (∀ sa ob, (read_orders s sa lim ob).length ≤ min (lim.getD DEFAULT_LIMIT) MAX_LIMIT) ∧
    (∀ u sa ob rs, read_orders_by_user s u sa lim ob = Except.ok rs →
      rs.length ≤ min (lim.getD DEFAULT_LIMIT) MAX_LIMIT) ∧
    (∀ o ∈ read_orders s (some N) lim (some OrderBy.Asc), N < o.order_id) ∧
    (∀ o ∈ read_orders s (some N) lim (some OrderBy.Desc), o.order_id < N) ∧
    (∀ u rs, read_orders_by_user s u (some N) lim (some OrderBy.Asc) = Except.ok rs →
      ∀ o ∈ rs, N < o.order_id) ∧
    (∀ u rs, read_orders_by_user s u (some N) lim (some OrderBy.Desc) = Except.ok rs →
      ∀ o ∈ rs, o.order_id < N) ∧
    read_orders s none lim (some OrderBy.Asc) =
      (s.orders.take (min (lim.getD DEFAULT_LIMIT) MAX_LIMIT)).map (fun p => p.2) ∧
    read_orders s none lim (some OrderBy.Desc) =
      (s.orders.reverse.take (min (lim.getD DEFAULT_LIMIT) MAX_LIMIT)).map
        (fun p => p.2) ∧
    (∀ u, read_orders_by_user s u none lim (some OrderBy.Asc) =
      load_order_keys s.orders
        (((s.orders_by_user.filter (fun p => decide (p.1.1 = u))).map
          (fun p => p.1.2)).take (min (lim.getD DEFAULT_LIMIT) MAX_LIMIT))) ∧
    (∀ u, read_orders_by_user s u none lim (some OrderBy.Desc) =
      load_order_keys s.orders
        ((((s.orders_by_user.filter (fun p => decide (p.1.1 = u))).map
          (fun p => p.1.2)).reverse.take (min (lim.getD DEFAULT_LIMIT) MAX_LIMIT)))) :=
  ⟨fun sa ob => read_orders_length s sa lim ob,
   fun u sa ob rs h => read_orders_by_user_length s u sa lim ob rs h,
   read_orders_asc_bound s N lim hco hN,
   read_orders_desc_bound s N lim hco hN,
   fun u rs h => read_orders_by_user_asc_bound s u N lim hco hN rs h,
   fun u rs h => read_orders_by_user_desc_bound s u N lim hco hN rs h,
   read_orders_none_asc s lim,
   read_orders_none_desc s lim,
   fun u => read_orders_by_user_none_asc s u lim,
   fun u => read_orders_by_user_none_desc s u lim⟩

theorem claim_C6_witness :
    (read_orders testState (some 0) (some 5) (some OrderBy.Asc)).length ≤
      min ((some (5 : Nat)).getD DEFAULT_LIMIT) MAX_LIMIT :=
  (claim_C6_pagination testState 0 (some 5) (by decide) (by decide)).1 (some 0)
    (some OrderBy.Asc)

/-- C7: a successful `submit_order` followed immediately by querying the new
order id returns a response whose offer, ask and fee equal those submitted and
whose bidder and pair equal the sender and the pool resolved at submission. -/
theorem claim_C7_round_trip (pi : PairInfo) (s : State) (env : Env)
    (info : MessageInfo) (oa aa : Asset) (fa : Nat) (s2 : State) (r : Response)
    (h : submit_order (some pi) s env info oa aa fa = (s2, Except.ok r)) :
    query_order s2 s2.last_order_id = Except.ok
      { order_id := s2.last_order_id, bidder_addr := info.sender,
        pair_addr := pi.contract_addr, offer_asset := oa, ask_asset := aa,
        fee_amount := fa } := by
  obtain ⟨pi2, o2, hpq, hstore⟩ := submit_order_ok_spec (some pi) s env info oa aa fa s2 r h
  injection hpq with hpi
  subst hpi
  obtain ⟨hlast, ho2, _, hord, _, _⟩ := store_new_order_ok_spec s _ s2 o2 hstore
  simp only [query_order]
  rw [hlast, hord]
  rw [kvLoad_kvSave_self]
  rw [ho2]
  rfl

theorem claim_C7_witness :
    query_order testState testState.last_order_id = Except.ok
      { order_id := testState.last_order_id, bidder_addr := testInfo.sender,
        pair_addr := testPair.contract_addr, offer_asset := testOffer,
        ask_asset := testAsk, fee_amount := 100 } :=
  claim_C7_round_trip testPair (instantiate testMsg) testEnv testInfo testOffer testAsk
    100 testState testResp (by decide)

/-- C8: every entry-point call that returns an error leaves the stored state
unchanged (and, errors carrying no response, produces no instructions):
failure is atomic. -/
theorem claim_C8_atomic_failure (pq : Option PairInfo) (sim : Option SimulationResponse)
    (s : State) (env : Env) (info : MessageInfo) (msg : ExecuteMsg) (s2 : State)
    (e : StdError) (h : execute pq sim s env info msg = (s2, Except.error e)) :
    s2 = s := by
  cases msg with
  | SubmitOrder oa aa fa => exact submit_order_error_state pq s env info oa aa fa s2 e h
  | CancelOrder oid => exact cancel_order_error_state s info oid s2 e h
  | ExecuteOrder oid => exact execute_order_error_state sim s info oid s2 e h

theorem claim_C8_witness :
    execute none none testState testEnv testInfoBob (ExecuteMsg.CancelOrder 1) =
      (testState, Except.error StdError.unauthorized) ∧ testState = testState :=
  ⟨by decide,
   claim_C8_atomic_failure none none testState testEnv testInfoBob
     (ExecuteMsg.CancelOrder 1) testState StdError.unauthorized (by decide)⟩

/-- C9: the `Uint128` subtraction computing the excess in `execute_order` never
underflows: the preceding guard makes its panic branch unreachable. -/
theorem claim_C9_no_underflow (sim : Option SimulationResponse) (s : State)
    (info : MessageInfo) (oid : Nat) :
    (execute_order sim s info oid).2 ≠ Except.error StdError.overflowPanic := by
  rcases hcase : kvLoad s.orders (to_be_bytes oid) with _ | order
  · rw [execute_order_not_found sim s info oid hcase]
    simp
  · cases sim with
    | none =>
      rw [execute_order_no_sim s info oid order hcase]
      simp
    | some R =>
      by_cases hge : order.ask_asset.amount ≤ R.return_amount
      · rw [execute_order_ok_spec R s info oid order hcase hge]
        simp
      · rw [execute_order_insufficient R s info oid order hcase (by omega)]
        simp

theorem claim_C9_witness :
    (execute_order (some ⟨490⟩) testState testInfoBob 1).2 ≠
      Except.error StdError.overflowPanic :=
  claim_C9_no_underflow (some ⟨490⟩) testState testInfoBob 1

/-- C10: an unspecified `order_by` defaults to descending order by order id,
identical to passing `Desc` explicitly, for both the global and the
owner-scoped listing. -/
theorem claim_C10_default_desc (s : State) (sa : Option Nat) (lim : Option Nat)
    (u : String) :
    read_orders s sa lim none = read_orders s sa lim (some OrderBy.Desc) ∧
    read_orders_by_user s u sa lim none =
      read_orders_by_user s u sa lim (some OrderBy.Desc) :=
  ⟨rfl, rfl⟩

end MiawLimitOrder
